import Mathlib

/-
Verification of the Salesforce schema tooling (metadata parsing, partitioning,
categorization, indexing, and the enrichment merge pass).

The Python scripts operate on YAML/JSON data, i.e. on dictionaries whose keys
are strings.  We embed those dictionaries as association lists that mirror
CPython dict semantics: assignment to an existing key replaces the value in
place (keeping the key's position), assignment to a fresh key appends at the
end, and `pop` removes the entry.  Python truthiness of the stored values is
modelled explicitly.
-/

namespace SfSchema

/-- A YAML/JSON scalar-or-string-list value as it appears inside a field
record.  `vStrs` covers the string lists used for picklist values and
multi-target references. -/
inductive Val where
  | vNone
  | vBool (b : Bool)
  | vInt (n : Int)
  | vStr (s : String)
  | vStrs (xs : List String)
deriving DecidableEq, Repr

/-- Python truthiness of a `Val` (`bool(v)`). -/
def truthy : Val → Bool
  | .vNone => false
  | .vBool b => b
  | .vInt n => n != 0
  | .vStr s => s != ""
  | .vStrs xs => !xs.isEmpty

/-- A Python dictionary with string keys, as an association list in key
insertion order. -/
abbrev PyDict (α : Type) := List (String × α)

/-- A field record: a Python dict of `Val`s. -/
abbrev Dict := PyDict Val

/-- `d[k]` lookup / `k in d` membership: first entry with the key. -/
def dictLookup {α : Type} (k : String) : PyDict α → Option α
  | [] => none
  | (k', v) :: t => if k' = k then some v else dictLookup k t

/-- `d[k] = v`: replace in place when the key exists, append otherwise
(CPython dict assignment keeps the position of an existing key). -/
def dictInsert {α : Type} (k : String) (v : α) : PyDict α → PyDict α
  | [] => [(k, v)]
  | (k', v') :: t => if k' = k then (k, v) :: t else (k', v') :: dictInsert k v t

/-- `d.pop(k, None)`: drop the entry with the key, if any. -/
def dictErase {α : Type} (k : String) : PyDict α → PyDict α
  | [] => []
  | (k', v') :: t => if k' = k then t else (k', v') :: dictErase k t

/-- The keys of a dict, in order. -/
def keysOf {α : Type} (d : PyDict α) : List String := d.map Prod.fst

theorem dictLookup_insert_self {α : Type} (k : String) (v : α) (d : PyDict α) :
    dictLookup k (dictInsert k v d) = some v := by
  induction d with
  | nil => simp [dictInsert, dictLookup]
  | cons h t ih =>
    obtain ⟨k', v'⟩ := h
    by_cases hk : k' = k <;> simp [dictInsert, dictLookup, hk, ih]

theorem dictLookup_insert_ne {α : Type} {k k' : String} (h : k' ≠ k) (v : α) (d : PyDict α) :
    dictLookup k' (dictInsert k v d) = dictLookup k' d := by
  induction d with
  | nil => simp [dictInsert, dictLookup, Ne.symm h]
  | cons hd t ih =>
    obtain ⟨k₀, v₀⟩ := hd
    by_cases hk : k₀ = k
    · subst hk
      simp [dictInsert, dictLookup, Ne.symm h]
    · simp [dictInsert, dictLookup, hk, ih]

theorem dictInsert_lookup_eq {α : Type} {k : String} {v : α} {d : PyDict α}
    (h : dictLookup k d = some v) : dictInsert k v d = d := by
  induction d with
  | nil => simp [dictLookup] at h
  | cons hd t ih =>
    obtain ⟨k₀, v₀⟩ := hd
    by_cases hk : k₀ = k
    · subst hk
      simp [dictLookup] at h
      simp [dictInsert, h]
    · simp [dictLookup, hk] at h
      simp [dictInsert, hk, ih h]

theorem dictErase_insert {α : Type} (k : String) (v : α) (d : PyDict α) :
    dictErase k (dictInsert k v d) = dictErase k d := by
  induction d with
  | nil => simp [dictInsert, dictErase]
  | cons hd t ih =>
    obtain ⟨k₀, v₀⟩ := hd
    by_cases hk : k₀ = k
    · simp [dictInsert, dictErase, hk]
    · simp [dictInsert, dictErase, hk, ih]

theorem dictLookup_erase_ne {α : Type} {k k' : String} (h : k ≠ k') (d : PyDict α) :
    dictLookup k (dictErase k' d) = dictLookup k d := by
  induction d with
  | nil => simp [dictErase, dictLookup]
  | cons hd t ih =>
    obtain ⟨k₀, v₀⟩ := hd
    by_cases hk : k₀ = k'
    · subst hk
      simp [dictErase, dictLookup, Ne.symm h, ih]
    · by_cases hk2 : k₀ = k
      · subst hk2
        simp [dictErase, dictLookup, hk, ih]
      · simp [dictErase, dictLookup, hk, hk2, ih]

theorem dictLookup_not_mem {α : Type} {k : String} {d : PyDict α}
    (h : k ∉ keysOf d) : dictLookup k d = none := by
  induction d with
  | nil => simp [dictLookup]
  | cons hd t ih =>
    obtain ⟨k₀, v₀⟩ := hd
    simp only [keysOf, List.map_cons, List.mem_cons, not_or] at h
    simp [dictLookup, Ne.symm h.1, ih h.2]

/-! ## Enricher: external field metadata (enrich_schema_with_picklists.py) -/

/-- One entry of `picklistValues` in the external describe response.
`active` is `none` when the option carries no `active` flag at all
(`pv.get('active', True)` then defaults to `True`). -/
structure PkOption where
  value : String
  active : Option Bool
deriving DecidableEq, Repr

/-- The externally fetched attribute map for one field (one entry of the
describe response's `fields` list).  Scalar attributes that the script only
ever tests for truthiness are kept as `Val`; `nillable` is tested with
`is False`, so it stays an `Option Bool`; `referenceTo` is a JSON list of
target names. -/
structure OrgField where
  name : String
  ftype : String
  picklistValues : List PkOption
  calculated : Bool
  calculatedFormula : Val
  defaultValue : Val
  nillable : Option Bool
  uniqueAttr : Val
  externalId : Val
  referenceTo : List String
  controllerName : Val
  dependentPicklist : Val
  lengthAttr : Val
  precision : Val
  scale : Val
  inlineHelpText : Val
  label : Val
deriving DecidableEq, Repr

/-- `SchemaEnricher.extract_picklist_values`: for `picklist`/`multipicklist`
fields, the values of the options whose `active` flag (defaulting to `True`)
is set, in response order; `None` when the field is not a picklist or when no
option survives the filter. -/
def extract_picklist_values (g : OrgField) : Option (List String) :=
  if g.ftype = "picklist" ∨ g.ftype = "multipicklist" then
    if ((g.picklistValues.filter (fun pv => pv.active.getD true)).map (fun pv => pv.value)).isEmpty
    then none
    else some ((g.picklistValues.filter (fun pv => pv.active.getD true)).map (fun pv => pv.value))
  else none

/-- The value stored under `reference_to`: the single target when the JSON
list has exactly one element, the whole list otherwise
(`reference_to[0] if len(reference_to) == 1 else reference_to`). -/
def refVal (rt : List String) : Val :=
  match rt with
  | [x] => .vStr x
  | _ => .vStrs rt

/-- `SchemaEnricher._extract_non_picklist_formula_metadata`: the dict of
fill-missing attributes built from one external field record, in the
script's insertion order. -/
def extractNonPk (g : OrgField) : Dict :=
  (if truthy g.defaultValue then [("default_value", g.defaultValue)] else [])
  ++ (if g.nillable = some false then [("required", Val.vBool true)] else [])
  ++ (if truthy g.uniqueAttr then [("unique", Val.vBool true)] else [])
  ++ (if truthy g.externalId then [("external_id", Val.vBool true)] else [])
  ++ (if g.ftype = "reference" ∧ g.referenceTo ≠ [] then [("reference_to", refVal g.referenceTo)] else [])
  ++ (if truthy g.controllerName then [("controlling_field", g.controllerName)] else [])
  ++ (if truthy g.dependentPicklist then [("is_dependent_picklist", Val.vBool true)] else [])
  ++ (if truthy g.lengthAttr then [("length", g.lengthAttr)] else [])
  ++ (if truthy g.precision then [("precision", g.precision)] else [])
  ++ (if truthy g.scale then [("scale", g.scale)] else [])
  ++ (if truthy g.inlineHelpText then [("help_text", g.inlineHelpText)] else [])
  ++ (if truthy g.label then [("label", g.label)] else [])

/-- The fixed key vocabulary of `extractNonPk`. -/
def nonPkKeys : List String :=
  ["default_value", "required", "unique", "external_id", "reference_to",
   "controlling_field", "is_dependent_picklist", "length", "precision",
   "scale", "help_text", "label"]

theorem keysOf_append {α : Type} (a b : PyDict α) :
    keysOf (a ++ b) = keysOf a ++ keysOf b := by
  simp [keysOf]

theorem keysOf_if_single {α : Type} {c : Prop} [Decidable c] {k : String} {v : α} :
    List.Sublist (keysOf (if c then [(k, v)] else [])) [k] := by
  by_cases h : c <;> simp [keysOf, h]

theorem keysOf_chunk_sublist {rest : Dict} {restKeys : List String} {c : Prop} [Decidable c]
    {k : String} {v : Val} (h : List.Sublist (keysOf rest) restKeys) :
    List.Sublist (keysOf ((if c then [(k, v)] else []) ++ rest)) (k :: restKeys) := by
  rw [keysOf_append]
  by_cases hc : c
  · simp only [if_pos hc]
    simpa [keysOf] using h.cons₂ k
  · simp only [if_neg hc]
    simpa [keysOf] using h.cons k

theorem extractNonPk_keys_sublist (g : OrgField) :
    List.Sublist (keysOf (extractNonPk g)) nonPkKeys := by
  unfold extractNonPk nonPkKeys
  simp only [List.append_assoc]
  apply keysOf_chunk_sublist
  apply keysOf_chunk_sublist
  apply keysOf_chunk_sublist
  apply keysOf_chunk_sublist
  apply keysOf_chunk_sublist
  apply keysOf_chunk_sublist
  apply keysOf_chunk_sublist
  apply keysOf_chunk_sublist
  apply keysOf_chunk_sublist
  apply keysOf_chunk_sublist
  apply keysOf_chunk_sublist
  exact keysOf_if_single

theorem extractNonPk_keys_nodup (g : OrgField) :
    (keysOf (extractNonPk g)).Nodup :=
  (extractNonPk_keys_sublist g).nodup (by decide)

theorem api_name_not_in_extractNonPk (g : OrgField) :
    "api_name" ∉ keysOf (extractNonPk g) := by
  intro h
  have := (extractNonPk_keys_sublist g).subset h
  simp [nonPkKeys] at this

/-! ## Enricher: fill-missing merge (`if key not in field or not field[key]`) -/

/-- One step of the merge loop over `enriched_data.items()`: adopt the
external value only when the key is absent from the field or its current
value is falsy. -/
def fillStep (f : Dict) (kv : String × Val) : Dict :=
  match dictLookup kv.1 f with
  | none => dictInsert kv.1 kv.2 f
  | some w => if truthy w then f else dictInsert kv.1 kv.2 f

/-- The merge of one field with the dict of external fill-missing
attributes, in the dict's iteration order. -/
def fillMissing (f : Dict) (entries : Dict) : Dict :=
  entries.foldl fillStep f

theorem fillMissing_nil (f : Dict) : fillMissing f [] = f := rfl

theorem fillMissing_cons (f : Dict) (kv : String × Val) (t : Dict) :
    fillMissing f (kv :: t) = fillMissing (fillStep f kv) t := rfl

theorem fillStep_lookup_ne {k : String} (f : Dict) (kv : String × Val) (h : k ≠ kv.1) :
    dictLookup k (fillStep f kv) = dictLookup k f := by
  unfold fillStep
  cases dictLookup kv.1 f with
  | none => exact dictLookup_insert_ne h _ _
  | some w =>
    by_cases hw : truthy w
    · simp [hw]
    · simp [hw, dictLookup_insert_ne h]

theorem fillMissing_lookup_not_mem {k : String} {entries : Dict}
    (h : k ∉ keysOf entries) (f : Dict) :
    dictLookup k (fillMissing f entries) = dictLookup k f := by
  induction entries generalizing f with
  | nil => rfl
  | cons kv t ih =>
    simp only [keysOf, List.map_cons, List.mem_cons, not_or] at h
    rw [fillMissing_cons, ih (by simpa [keysOf] using h.2), fillStep_lookup_ne f kv h.1]

/-- Looking up a merged attribute: an existing truthy value survives, an
absent or falsy one is replaced by the external value. -/
theorem fillMissing_lookup_mem {k : String} {v : Val} {entries : Dict}
    (hnd : (keysOf entries).Nodup) (hmem : (k, v) ∈ entries) (f : Dict) :
    dictLookup k (fillMissing f entries) =
      match dictLookup k f with
      | some w => if truthy w then some w else some v
      | none => some v := by
  induction entries generalizing f with
  | nil => simp at hmem
  | cons kv t ih =>
    simp only [keysOf, List.map_cons, List.nodup_cons] at hnd
    rcases List.mem_cons.mp hmem with heq | ht
    · subst heq
      have hk : k ∉ keysOf t := by simpa [keysOf] using hnd.1
      rw [fillMissing_cons, fillMissing_lookup_not_mem hk]
      unfold fillStep
      cases hf : dictLookup k f with
      | none => simp [dictLookup_insert_self]
      | some w =>
        by_cases hw : truthy w
        · simp [hf, hw]
        · simp [hf, hw, dictLookup_insert_self]
    · have hk : k ≠ kv.1 := by
        intro he
        exact hnd.1 (he ▸ (by simpa [keysOf] using List.mem_map_of_mem Prod.fst ht))
      rw [fillMissing_cons, ih (by simpa [keysOf] using hnd.2) ht,
        fillStep_lookup_ne f kv hk]

theorem fillMissing_foldl_id {entries : Dict} {g : Dict}
    (h : ∀ kv ∈ entries, fillStep g kv = g) : fillMissing g entries = g := by
  induction entries with
  | nil => rfl
  | cons kv t ih =>
    rw [fillMissing_cons, h kv (List.mem_cons_self kv t)]
    exact ih (fun e he => h e (List.mem_cons_of_mem kv he))

/-- Applying the fill-missing merge a second time with the same external
attributes changes nothing. -/
theorem fillMissing_idem {entries : Dict}
    (hnd : (keysOf entries).Nodup) (f : Dict) :
    fillMissing (fillMissing f entries) entries = fillMissing f entries := by
  apply fillMissing_foldl_id
  intro kv hkv
  obtain ⟨k, v⟩ := kv
  have hl := fillMissing_lookup_mem hnd hkv f
  unfold fillStep
  cases hf : dictLookup k f with
  | none =>
    simp only [hf] at hl
    simp only [hl]
    by_cases hv : truthy v
    · simp [hv]
    · simp [hv, dictInsert_lookup_eq hl]
  | some w =>
    simp only [hf] at hl
    by_cases hw : truthy w
    · simp only [hw, if_pos] at hl
      simp [hl, hw]
    · simp only [hw, if_neg, Bool.false_eq_true, not_false_iff] at hl
      simp only [hl]
      by_cases hv : truthy v
      · simp [hv]
      · simp [hv, dictInsert_lookup_eq hl]

/-! ## Enricher: per-object merge pass (`SchemaEnricher.enrich_object_schema`,
new folder structure).  The schema file is a dict with an `object` section
(whose `fields` list is the only part the pass rewrites) and a `metadata`
section; everything else passes through untouched. -/

/-- The in-memory content of one object's `schema.yaml`, restricted to the
parts the enrichment pass can touch.  `objRest` stands for the untouched
remainder of the `object` section and of the document root. -/
structure SchemaState where
  objFields : List Dict
  metadata : Dict
  objRest : Dict
deriving DecidableEq, Repr

/-- `org_fields = {f['name']: f for f in org_metadata.get('fields', [])}`. -/
def orgMap (fs : List OrgField) : PyDict OrgField :=
  fs.foldl (fun acc g => dictInsert g.name g acc) []

/-- `field.get('api_name')` as a dict key: only a string value can match the
string-keyed external map. -/
def fieldNameOf (f : Dict) : Option String :=
  match dictLookup "api_name" f with
  | some (.vStr s) => some s
  | _ => none

/-- The per-field body of the enrichment loop (new structure): the merged
field, plus the optional `picklists_data` and `formulas_data` entries it
contributes. -/
def enrichField (om : PyDict OrgField) (f : Dict) :
    Dict × Option (String × Val) × Option (String × Val) :=
  match fieldNameOf f with
  | none => (f, none, none)
  | some n =>
    match dictLookup n om with
    | none => (f, none, none)
    | some g =>
      let pkE : Option (String × Val) :=
        if g.ftype = "picklist" ∨ g.ftype = "multipicklist" then
          match extract_picklist_values g with
          | some vs => some (n, Val.vStrs vs)
          | none => none
        else none
      let fmE : Option (String × Val) :=
        if g.calculated ∧ truthy g.calculatedFormula then some (n, g.calculatedFormula) else none
      (fillMissing f (extractNonPk g), pkE, fmE)

/-- Fold an optional dict entry into an accumulating Python dict. -/
def addEntry (d : Dict) : Option (String × Val) → Dict
  | none => d
  | some e => dictInsert e.1 e.2 d

/-- The enrichment loop over `schema['object']['fields']`: the enriched
field list and the accumulated `picklists_data` / `formulas_data` dicts. -/
def enrichLoop (om : PyDict OrgField) (fields : List Dict) :
    List Dict × Dict × Dict :=
  fields.foldl
    (fun acc f =>
      let r := enrichField om f
      (acc.1 ++ [r.1], addEntry acc.2.1 r.2.1, addEntry acc.2.2 r.2.2))
    ([], [], [])

/-- One full run of `enrich_object_schema` over an object in the new folder
structure: the rewritten schema state (fields replaced, `enriched_date`,
`has_picklists`, `has_formulas` stamped into `metadata`) together with the
`picklists.yaml` and `formulas.yaml` payload dicts. -/
def enrichStep (s : SchemaState) (om : PyDict OrgField) (now : String) :
    SchemaState × Dict × Dict :=
  ({ objFields := (enrichLoop om s.objFields).1,
     metadata :=
       dictInsert "has_formulas" (Val.vBool ((enrichLoop om s.objFields).2.2.length > 0))
         (dictInsert "has_picklists" (Val.vBool ((enrichLoop om s.objFields).2.1.length > 0))
           (dictInsert "enriched_date" (Val.vStr now) s.metadata)),
     objRest := s.objRest },
   (enrichLoop om s.objFields).2.1, (enrichLoop om s.objFields).2.2)

theorem fieldNameOf_fillMissing (f : Dict) (g : OrgField) :
    fieldNameOf (fillMissing f (extractNonPk g)) = fieldNameOf f := by
  unfold fieldNameOf
  rw [fillMissing_lookup_not_mem (api_name_not_in_extractNonPk g)]

/-- Re-enriching an already-enriched field with the same external record is
the identity on all three components. -/
theorem enrichField_idem (om : PyDict OrgField) (f : Dict) :
    enrichField om (enrichField om f).1 = enrichField om f := by
  unfold enrichField
  cases hn : fieldNameOf f with
  | none => simp [hn]
  | some n =>
    cases hg : dictLookup n om with
    | none => simp [hn, hg]
    | some g =>
      simp only [hn, hg, fieldNameOf_fillMissing, fillMissing_idem (extractNonPk_keys_nodup g)]

theorem enrichLoop_go (om : PyDict OrgField) (fields : List Dict)
    (a : List Dict) (p q : Dict) :
    fields.foldl
      (fun acc f =>
        let r := enrichField om f
        (acc.1 ++ [r.1], addEntry acc.2.1 r.2.1, addEntry acc.2.2 r.2.2))
      (a, p, q)
    = (a ++ fields.map (fun f => (enrichField om f).1),
       fields.foldl (fun d f => addEntry d (enrichField om f).2.1) p,
       fields.foldl (fun d f => addEntry d (enrichField om f).2.2) q) := by
  induction fields generalizing a p q with
  | nil => simp
  | cons f fs ih => simp [ih]

theorem enrichLoop_unfold (om : PyDict OrgField) (fields : List Dict) :
    enrichLoop om fields
    = (fields.map (fun f => (enrichField om f).1),
       fields.foldl (fun d f => addEntry d (enrichField om f).2.1) [],
       fields.foldl (fun d f => addEntry d (enrichField om f).2.2) []) := by
  unfold enrichLoop
  simpa using enrichLoop_go om fields [] [] []

/-- The enrichment loop is idempotent: feeding its own output fields back in
(with the same external map) reproduces all three outputs. -/
theorem enrichLoop_idem (om : PyDict OrgField) (fields : List Dict) :
    enrichLoop om ((enrichLoop om fields).1) = enrichLoop om fields := by
  have hfun1 : (fun (d : Dict) (f : Dict) => addEntry d (enrichField om ((enrichField om f).1)).2.1)
      = fun d f => addEntry d (enrichField om f).2.1 := by
    funext d f
    rw [enrichField_idem]
  have hfun2 : (fun (d : Dict) (f : Dict) => addEntry d (enrichField om ((enrichField om f).1)).2.2)
      = fun d f => addEntry d (enrichField om f).2.2 := by
    funext d f
    rw [enrichField_idem]
  rw [enrichLoop_unfold om fields, enrichLoop_unfold]
  simp only [List.map_map, List.foldl_map, Function.comp_def, hfun1, hfun2]
  refine congrArg (fun x => (x, _, _)) ?_
  exact List.map_congr_left (fun f _ => congrArg Prod.fst (enrichField_idem om f))

theorem stamped_lookup_has_picklists (m : Dict) (t : String) (a b : Bool) :
    dictLookup "has_picklists"
      (dictInsert "has_formulas" (Val.vBool b)
        (dictInsert "has_picklists" (Val.vBool a)
          (dictInsert "enriched_date" (Val.vStr t) m))) = some (Val.vBool a) := by
  rw [dictLookup_insert_ne (by decide), dictLookup_insert_self]

theorem stamped_lookup_has_formulas (m : Dict) (t : String) (a b : Bool) :
    dictLookup "has_formulas"
      (dictInsert "has_formulas" (Val.vBool b)
        (dictInsert "has_picklists" (Val.vBool a)
          (dictInsert "enriched_date" (Val.vStr t) m))) = some (Val.vBool b) :=
  dictLookup_insert_self _ _ _

/-- C2: running the Enricher merge a second time over an object's
already-enriched partitioned payloads, with the same external field-attribute
map, reproduces the first run's output exactly — the enriched field list, the
untouched parts of the schema document, the picklists payload and the
formulas payload are all equal, and the metadata sections agree once the
`enriched_date` timestamp is removed. -/
theorem enrich_merge_idempotent (s : SchemaState) (om : PyDict OrgField) (t1 t2 : String) :
    (enrichStep (enrichStep s om t1).1 om t2).1.objFields = (enrichStep s om t1).1.objFields
  ∧ dictErase "enriched_date" (enrichStep (enrichStep s om t1).1 om t2).1.metadata
      = dictErase "enriched_date" (enrichStep s om t1).1.metadata
  ∧ (enrichStep (enrichStep s om t1).1 om t2).1.objRest = (enrichStep s om t1).1.objRest
  ∧ (enrichStep (enrichStep s om t1).1 om t2).2.1 = (enrichStep s om t1).2.1
  ∧ (enrichStep (enrichStep s om t1).1 om t2).2.2 = (enrichStep s om t1).2.2 := by
  have hloop : enrichLoop om ((enrichStep s om t1).1.objFields) = enrichLoop om s.objFields :=
    enrichLoop_idem om s.objFields
  refine ⟨?_, ?_, rfl, ?_, ?_⟩
  · show (enrichLoop om ((enrichStep s om t1).1.objFields)).1 = (enrichLoop om s.objFields).1
    rw [hloop]
  · show dictErase "enriched_date"
        (dictInsert "has_formulas"
          (Val.vBool ((enrichLoop om ((enrichStep s om t1).1.objFields)).2.2.length > 0))
          (dictInsert "has_picklists"
            (Val.vBool ((enrichLoop om ((enrichStep s om t1).1.objFields)).2.1.length > 0))
            (dictInsert "enriched_date" (Val.vStr t2) (enrichStep s om t1).1.metadata)))
      = dictErase "enriched_date" (enrichStep s om t1).1.metadata
    rw [hloop]
    have h1 : dictLookup "has_picklists"
        (dictInsert "enriched_date" (Val.vStr t2) (enrichStep s om t1).1.metadata)
        = some (Val.vBool ((enrichLoop om s.objFields).2.1.length > 0)) := by
      rw [dictLookup_insert_ne (by decide)]
      exact stamped_lookup_has_picklists s.metadata t1 _ _
    have h2 : dictLookup "has_formulas"
        (dictInsert "enriched_date" (Val.vStr t2) (enrichStep s om t1).1.metadata)
        = some (Val.vBool ((enrichLoop om s.objFields).2.2.length > 0)) := by
      rw [dictLookup_insert_ne (by decide)]
      exact stamped_lookup_has_formulas s.metadata t1 _ _
    rw [dictInsert_lookup_eq h1, dictInsert_lookup_eq h2, dictErase_insert]
  · show (enrichLoop om ((enrichStep s om t1).1.objFields)).2.1 = (enrichLoop om s.objFields).2.1
    rw [hloop]
  · show (enrichLoop om ((enrichStep s om t1).1.objFields)).2.2 = (enrichLoop om s.objFields).2.2
    rw [hloop]

/-! ## Splitter: field partitioning
(`SchemaOptimizer._extract_field_metadata` in
salesforce/scripts/split_schema_by_object.py). -/

/-- `'k' in field and field[k]`, returning the (truthy) value. -/
def truthyEntry (k : String) (f : Dict) : Option Val :=
  match dictLookup k f with
  | some v => if truthy v then some v else none
  | none => none

theorem truthyEntry_some_eq {k : String} {f : Dict} {v : Val}
    (h : truthyEntry k f = some v) : dictLookup k f = some v := by
  unfold truthyEntry at h
  cases hl : dictLookup k f with
  | none => simp [hl] at h
  | some w =>
    simp only [hl] at h
    by_cases hw : truthy w
    · simp only [hw, if_pos] at h
      rw [h]
    · simp [hw] at h

/-- `field.get('api_name', '')`, restricted to string values (the keys of
the picklist/formula payload dicts in this model are strings). -/
def getStrD (k : String) (f : Dict) : String :=
  match dictLookup k f with
  | some (.vStr s) => s
  | _ => ""

/-- The annotation inserted when picklist values are stripped from a field. -/
def pkNote (objName : String) : Val :=
  .vStr ("Picklist values available in config/schema/objects/" ++ objName ++ "/picklists.yaml")

/-- The annotation inserted when a formula is stripped from a field. -/
def fmNote (objName : String) : Val :=
  .vStr ("Formula definition available in config/schema/objects/" ++ objName ++ "/formulas.yaml")

/-- The core-schema copy of one field: truthy `picklist_values` and
`formula` are popped and an annotation is written under `_note`. -/
def coreOf (objName : String) (f : Dict) : Dict :=
  let c1 :=
    match truthyEntry "picklist_values" f with
    | some _ => dictInsert "_note" (pkNote objName) (dictErase "picklist_values" f)
    | none => f
  match truthyEntry "formula" f with
  | some _ => dictInsert "_note" (fmNote objName) (dictErase "formula" c1)
  | none => c1

/-- The `picklists[field_name] = field['picklist_values']` contribution of
one field. -/
def pkEntryOf (f : Dict) : Option (String × Val) :=
  match truthyEntry "picklist_values" f with
  | some v => some (getStrD "api_name" f, v)
  | none => none

/-- The `formulas[field_name] = field['formula']` contribution of one
field. -/
def fmEntryOf (f : Dict) : Option (String × Val) :=
  match truthyEntry "formula" f with
  | some v => some (getStrD "api_name" f, v)
  | none => none

/-- `SchemaOptimizer._extract_field_metadata`: one pass over the object's
fields, building the picklists dict, the formulas dict, and the core field
list. -/
def extractFieldMetadata (objName : String) (fields : List Dict) :
    Dict × Dict × List Dict :=
  fields.foldl
    (fun acc f =>
      (addEntry acc.1 (pkEntryOf f), addEntry acc.2.1 (fmEntryOf f),
       acc.2.2 ++ [coreOf objName f]))
    ([], [], [])

theorem extractFM_go (objName : String) (fields : List Dict)
    (p q : Dict) (a : List Dict) :
    fields.foldl
      (fun acc f =>
        (addEntry acc.1 (pkEntryOf f), addEntry acc.2.1 (fmEntryOf f),
         acc.2.2 ++ [coreOf objName f]))
      (p, q, a)
    = (fields.foldl (fun d f => addEntry d (pkEntryOf f)) p,
       fields.foldl (fun d f => addEntry d (fmEntryOf f)) q,
       a ++ fields.map (coreOf objName)) := by
  induction fields generalizing p q a with
  | nil => simp
  | cons f fs ih => simp [ih]

theorem fold_addEntry_lookup_not_mem {ef : Dict → Option (String × Val)}
    {nm : Dict → String}
    (hkey : ∀ f x, ef f = some x → x.1 = nm f)
    {n : String} {fs : List Dict} (h : n ∉ fs.map nm) (p : Dict) :
    dictLookup n (fs.foldl (fun d f => addEntry d (ef f)) p) = dictLookup n p := by
  induction fs generalizing p with
  | nil => rfl
  | cons f t ih =>
    simp only [List.map_cons, List.mem_cons, not_or] at h
    rw [List.foldl_cons, ih h.2]
    cases he : ef f with
    | none => rfl
    | some x =>
      show dictLookup n (dictInsert x.1 x.2 p) = dictLookup n p
      exact dictLookup_insert_ne (fun hx => h.1 (hx.trans (hkey f x he))) x.2 p

theorem fold_addEntry_lookup_split {ef : Dict → Option (String × Val)}
    {nm : Dict → String}
    (hkey : ∀ f x, ef f = some x → x.1 = nm f)
    {pre post : List Dict} {f₀ : Dict}
    (hnd : (((pre ++ f₀ :: post)).map nm).Nodup) :
    dictLookup (nm f₀) ((pre ++ f₀ :: post).foldl (fun d f => addEntry d (ef f)) [])
      = (ef f₀).map Prod.snd := by
  rw [List.map_append, List.map_cons] at hnd
  have hsplit := List.nodup_middle.mp hnd
  rw [List.nodup_cons, List.mem_append, not_or] at hsplit
  rw [List.foldl_append, List.foldl_cons,
    fold_addEntry_lookup_not_mem hkey hsplit.1.2]
  have hpre : dictLookup (nm f₀) (pre.foldl (fun d f => addEntry d (ef f)) []) = none := by
    rw [fold_addEntry_lookup_not_mem hkey hsplit.1.1]
    rfl
  cases he : ef f₀ with
  | none =>
    simpa [addEntry] using hpre
  | some x =>
    have h2 : dictLookup (nm f₀)
        (dictInsert x.1 x.2 (pre.foldl (fun d f => addEntry d (ef f)) [])) = some x.2 := by
      rw [hkey f₀ x he]
      exact dictLookup_insert_self _ _ _
    simpa [addEntry] using h2

theorem extractFM_pk_lookup (objName : String) {pre post : List Dict} {f₀ : Dict}
    (hnd : (((pre ++ f₀ :: post)).map (getStrD "api_name")).Nodup) :
    dictLookup (getStrD "api_name" f₀)
        ((extractFieldMetadata objName (pre ++ f₀ :: post)).1)
      = truthyEntry "picklist_values" f₀ := by
  unfold extractFieldMetadata
  rw [extractFM_go]
  have hkey : ∀ f x, pkEntryOf f = some x → x.1 = getStrD "api_name" f := by
    intro f x hx
    unfold pkEntryOf at hx
    cases ht : truthyEntry "picklist_values" f with
    | none => simp [ht] at hx
    | some v =>
      simp only [ht] at hx
      injection hx with h2
      rw [← h2]
  show dictLookup (getStrD "api_name" f₀)
      ((pre ++ f₀ :: post).foldl (fun d f => addEntry d (pkEntryOf f)) [])
    = truthyEntry "picklist_values" f₀
  rw [fold_addEntry_lookup_split hkey hnd]
  unfold pkEntryOf
  cases ht : truthyEntry "picklist_values" f₀ <;> simp [ht]

theorem extractFM_fm_lookup (objName : String) {pre post : List Dict} {f₀ : Dict}
    (hnd : (((pre ++ f₀ :: post)).map (getStrD "api_name")).Nodup) :
    dictLookup (getStrD "api_name" f₀)
        ((extractFieldMetadata objName (pre ++ f₀ :: post)).2.1)
      = truthyEntry "formula" f₀ := by
  unfold extractFieldMetadata
  rw [extractFM_go]
  have hkey : ∀ f x, fmEntryOf f = some x → x.1 = getStrD "api_name" f := by
    intro f x hx
    unfold fmEntryOf at hx
    cases ht : truthyEntry "formula" f with
    | none => simp [ht] at hx
    | some v =>
      simp only [ht] at hx
      injection hx with h2
      rw [← h2]
  show dictLookup (getStrD "api_name" f₀)
      ((pre ++ f₀ :: post).foldl (fun d f => addEntry d (fmEntryOf f)) [])
    = truthyEntry "formula" f₀
  rw [fold_addEntry_lookup_split hkey hnd]
  unfold fmEntryOf
  cases ht : truthyEntry "formula" f₀ <;> simp [ht]

theorem extractFM_cores (objName : String) (fields : List Dict) :
    (extractFieldMetadata objName fields).2.2 = fields.map (coreOf objName) := by
  unfold extractFieldMetadata
  rw [extractFM_go]
  rfl

/-- Modelled from the specified losslessness invariant: reconstruct a field
from its core-schema entry by removing the annotation key and re-attaching
the picklist and formula payload entries stored under the field's name, when
they exist. -/
def reconField (c : Dict) (pk fm : Dict) (n : String) : Dict :=
  let c0 := dictErase "_note" c
  let c1 :=
    match dictLookup n pk with
    | some v => dictInsert "picklist_values" v c0
    | none => c0
  match dictLookup n fm with
  | some v => dictInsert "formula" v c1
  | none => c1

theorem recon_core_lookups (objName : String) (f : Dict) {pk fm : Dict}
    (hpk : dictLookup (getStrD "api_name" f) pk = truthyEntry "picklist_values" f)
    (hfm : dictLookup (getStrD "api_name" f) fm = truthyEntry "formula" f) :
    dictLookup "picklist_values"
        (reconField (coreOf objName f) pk fm (getStrD "api_name" f))
      = dictLookup "picklist_values" f
  ∧ dictLookup "formula"
        (reconField (coreOf objName f) pk fm (getStrD "api_name" f))
      = dictLookup "formula" f := by
  rcases htp : truthyEntry "picklist_values" f with _ | vp
  · rcases htf : truthyEntry "formula" f with _ | vf
    · rw [htp] at hpk
      rw [htf] at hfm
      unfold reconField coreOf
      simp only [htp, htf, hpk, hfm]
      exact ⟨dictLookup_erase_ne (by decide) f, dictLookup_erase_ne (by decide) f⟩
    · rw [htp] at hpk
      rw [htf] at hfm
      unfold reconField coreOf
      simp only [htp, htf, hpk, hfm]
      constructor
      · rw [dictLookup_insert_ne (by decide), dictLookup_erase_ne (by decide),
          dictLookup_insert_ne (by decide), dictLookup_erase_ne (by decide)]
      · rw [dictLookup_insert_self]
        exact (truthyEntry_some_eq htf).symm
  · rcases htf : truthyEntry "formula" f with _ | vf
    · rw [htp] at hpk
      rw [htf] at hfm
      unfold reconField coreOf
      simp only [htp, htf, hpk, hfm]
      constructor
      · rw [dictLookup_insert_self]
        exact (truthyEntry_some_eq htp).symm
      · rw [dictLookup_insert_ne (by decide), dictLookup_erase_ne (by decide),
          dictLookup_insert_ne (by decide), dictLookup_erase_ne (by decide)]
    · rw [htp] at hpk
      rw [htf] at hfm
      unfold reconField coreOf
      simp only [htp, htf, hpk, hfm]
      constructor
      · rw [dictLookup_insert_ne (by decide), dictLookup_insert_self]
        exact (truthyEntry_some_eq htp).symm
      · rw [dictLookup_insert_self]
        exact (truthyEntry_some_eq htf).symm

/-- C1: for every object and every field in it (field api_names unique
within the object), the Splitter's partition is lossless: the core entry for
a field is exactly its annotated stripped copy, and removing the annotation
key and re-attaching the picklist and formula payload entries stored under
the field's name reconstructs the original field's `picklist_values` and
`formula` exactly. -/
theorem split_partition_lossless (objName : String) (fields : List Dict)
    (hnd : (fields.map (getStrD "api_name")).Nodup) :
    (extractFieldMetadata objName fields).2.2 = fields.map (coreOf objName)
  ∧ ∀ f ∈ fields,
      dictLookup "picklist_values"
          (reconField (coreOf objName f) (extractFieldMetadata objName fields).1
            (extractFieldMetadata objName fields).2.1 (getStrD "api_name" f))
        = dictLookup "picklist_values" f
      ∧ dictLookup "formula"
          (reconField (coreOf objName f) (extractFieldMetadata objName fields).1
            (extractFieldMetadata objName fields).2.1 (getStrD "api_name" f))
        = dictLookup "formula" f := by
  refine ⟨extractFM_cores objName fields, ?_⟩
  intro f hf
  obtain ⟨pre, post, rfl⟩ := List.append_of_mem hf
  exact recon_core_lookups objName f (extractFM_pk_lookup objName hnd)
    (extractFM_fm_lookup objName hnd)

/-- The `Account.Status` picklist field of the spec's partition scenario. -/
def statusFieldEx : Dict :=
  [("api_name", Val.vStr "Status"), ("type", Val.vStr "Picklist"),
   ("picklist_values", Val.vStrs ["Open", "Closed"])]

theorem split_partition_lossless_witness :
    dictLookup "picklist_values"
      (reconField (coreOf "Account" statusFieldEx)
        (extractFieldMetadata "Account" [statusFieldEx]).1
        (extractFieldMetadata "Account" [statusFieldEx]).2.1 "Status")
      = some (Val.vStrs ["Open", "Closed"]) :=
  ((split_partition_lossless "Account" [statusFieldEx] (by decide)).2 statusFieldEx
      (by decide)).1.trans (by decide)

/-! ## Claims C6, C7, C10: picklist extraction and fill-missing semantics -/

/-- Modelled from the spec wording: the values of the options flagged
active (a missing flag counts as active), in their original order, with
every inactive option dropped. -/
def specActiveValues : List PkOption → List String
  | [] => []
  | pv :: t => if pv.active.getD true then pv.value :: specActiveValues t else specActiveValues t

theorem specActiveValues_eq_filter (opts : List PkOption) :
    specActiveValues opts = (opts.filter (fun pv => pv.active.getD true)).map (fun pv => pv.value) := by
  induction opts with
  | nil => rfl
  | cons pv t ih =>
    by_cases h : pv.active.getD true = true <;> simp [specActiveValues, List.filter_cons, h, ih]

/-- C6: for every picklist or multiselect-picklist field fetched from the
external source, the extracted value list is exactly the values of the
options flagged active, in their original order, with every inactive option
dropped; a list is returned precisely when it is nonempty. -/
theorem picklist_extract_active_only (g : OrgField)
    (ht : g.ftype = "picklist" ∨ g.ftype = "multipicklist") (vs : List String) :
    extract_picklist_values g = some vs
      ↔ (vs = specActiveValues g.picklistValues ∧ vs ≠ []) := by
  unfold extract_picklist_values
  rw [if_pos ht, specActiveValues_eq_filter]
  by_cases hA : (g.picklistValues.filter (fun pv => pv.active.getD true)).map
      (fun pv => pv.value) = []
  · simp [hA]
  · have hE : ((g.picklistValues.filter (fun pv => pv.active.getD true)).map
        (fun pv => pv.value)).isEmpty = false := by
      simpa [List.isEmpty_iff] using hA
    simp only [hE, Bool.false_eq_true, if_false, Option.some.injEq, ne_eq]
    constructor
    · intro h
      exact ⟨h.symm, fun he => hA (h.trans he)⟩
    · intro h
      exact h.1.symm

/-- The spec's active-only filter example: options A (active) and
B (inactive). -/
def orgFieldBase : OrgField :=
  { name := "", ftype := "", picklistValues := [], calculated := false,
    calculatedFormula := .vNone, defaultValue := .vNone, nillable := none,
    uniqueAttr := .vNone, externalId := .vNone, referenceTo := [],
    controllerName := .vNone, dependentPicklist := .vNone, lengthAttr := .vNone,
    precision := .vNone, scale := .vNone, inlineHelpText := .vNone, label := .vNone }

def picklistFieldEx : OrgField :=
  { orgFieldBase with
    ftype := "picklist"
    picklistValues := [⟨"A", some true⟩, ⟨"B", some false⟩] }

theorem picklist_extract_active_only_witness :
    extract_picklist_values picklistFieldEx = some ["A"] :=
  (picklist_extract_active_only picklistFieldEx (Or.inl rfl) ["A"]).mpr
    ⟨by decide, by decide⟩

/-- C10: an option whose metadata lacks the `active` flag is treated as
active and included; when every option is flagged inactive the extraction
returns `None` rather than an empty list. -/
theorem picklist_flag_default_and_none (g : OrgField)
    (ht : g.ftype = "picklist" ∨ g.ftype = "multipicklist") :
    ((∀ pv ∈ g.picklistValues, pv.active = some false) → extract_picklist_values g = none)
  ∧ (∀ pv ∈ g.picklistValues, pv.active = none →
       ∃ vs, extract_picklist_values g = some vs ∧ pv.value ∈ vs) := by
  constructor
  · intro hall
    unfold extract_picklist_values
    rw [if_pos ht]
    have hf : g.picklistValues.filter (fun pv => pv.active.getD true) = [] := by
      rw [List.filter_eq_nil_iff]
      intro pv hpv
      rw [hall pv hpv]
      decide
    simp [hf]
  · intro pv hpv hnone
    have hmem : pv ∈ g.picklistValues.filter (fun x => x.active.getD true) :=
      List.mem_filter.mpr ⟨hpv, by rw [hnone]; rfl⟩
    have hv : pv.value ∈ (g.picklistValues.filter (fun x => x.active.getD true)).map
        (fun x => x.value) := List.mem_map_of_mem _ hmem
    refine ⟨_, ?_, hv⟩
    unfold extract_picklist_values
    rw [if_pos ht]
    have hne : ((g.picklistValues.filter (fun x => x.active.getD true)).map
        (fun x => x.value)).isEmpty = false := by
      rw [List.isEmpty_eq_false_iff_exists_mem]
      exact ⟨pv.value, hv⟩
    simp [hne]

def inactiveFieldEx : OrgField :=
  { orgFieldBase with ftype := "picklist", picklistValues := [⟨"X", some false⟩] }

def flaglessFieldEx : OrgField :=
  { orgFieldBase with ftype := "picklist", picklistValues := [⟨"Y", none⟩] }

theorem picklist_flag_default_and_none_witness :
    extract_picklist_values inactiveFieldEx = none
  ∧ ∃ vs, extract_picklist_values flaglessFieldEx = some vs ∧ "Y" ∈ vs :=
  ⟨(picklist_flag_default_and_none inactiveFieldEx (Or.inl rfl)).1 (by decide),
   (picklist_flag_default_and_none flaglessFieldEx (Or.inl rfl)).2 ⟨"Y", none⟩
     (by decide) rfl⟩

/-- C7: for every attribute in the fill-missing category and every field
processed by the merge, an existing truthy value is left unchanged, and the
external value is adopted exactly when the attribute is absent or its
current value is falsy. -/
theorem fill_missing_preserves_truthy (g : OrgField) (field : Dict) (k : String) (v : Val)
    (hkv : (k, v) ∈ extractNonPk g) :
    (∀ w, dictLookup k field = some w → truthy w →
        dictLookup k (fillMissing field (extractNonPk g)) = some w)
  ∧ (dictLookup k field = none →
        dictLookup k (fillMissing field (extractNonPk g)) = some v)
  ∧ (∀ w, dictLookup k field = some w → ¬ truthy w = true →
        dictLookup k (fillMissing field (extractNonPk g)) = some v) := by
  have h := fillMissing_lookup_mem (extractNonPk_keys_nodup g) hkv field
  refine ⟨?_, ?_, ?_⟩
  · intro w hw htw
    rw [h, hw]
    simp [htw]
  · intro hw
    rw [h, hw]
  · intro w hw htw
    rw [h, hw]
    simp [htw]

def orgFieldEx7 : OrgField :=
  { orgFieldBase with inlineHelpText := .vStr "ht", label := .vStr "L" }

theorem fill_missing_preserves_truthy_witness :
    dictLookup "label"
        (fillMissing [("label", Val.vStr "orig")] (extractNonPk orgFieldEx7))
      = some (Val.vStr "orig")
  ∧ dictLookup "help_text"
        (fillMissing [("label", Val.vStr "orig")] (extractNonPk orgFieldEx7))
      = some (Val.vStr "ht") :=
  ⟨(fill_missing_preserves_truthy orgFieldEx7 [("label", Val.vStr "orig")] "label"
      (Val.vStr "L") (by decide)).1 (Val.vStr "orig") (by decide) (by decide),
   (fill_missing_preserves_truthy orgFieldEx7 [("label", Val.vStr "orig")] "help_text"
      (Val.vStr "ht") (by decide)).2.1 (by decide)⟩

/-! ## Claim C5: search index field entries
(`SchemaOptimizer.create_search_index`).  The repository holds two splitter
variants: salesforce/scripts/split_schema_by_object.py (presence booleans
only) and the legacy scripts/split_schema_by_object.py (which copies the
actual picklist values into the index). -/

/-- One search-index field entry, salesforce/scripts variant: name, type,
required, presence booleans for picklist/formula, optional `reference_to`
and `length`. -/
def searchFieldInfo (f : Dict) : Dict :=
  addEntry
    (addEntry
      (addEntry
        (addEntry
          [("name", (dictLookup "api_name" f).getD (Val.vStr "")),
           ("type", (dictLookup "type" f).getD (Val.vStr "")),
           ("required", (dictLookup "required" f).getD (Val.vBool false))]
          ((truthyEntry "picklist_values" f).map (fun _ => ("has_picklist_values", Val.vBool true))))
        ((truthyEntry "formula" f).map (fun _ => ("has_formula", Val.vBool true))))
      ((dictLookup "reference_to" f).map (fun v => ("reference_to", v))))
    ((dictLookup "length" f).map (fun v => ("length", v)))

/-- One search-index field entry, legacy scripts variant: `picklist_values`
is copied verbatim whenever the key is present. -/
def searchFieldInfoLegacy (f : Dict) : Dict :=
  addEntry
    (addEntry
      (addEntry
        [("name", (dictLookup "api_name" f).getD (Val.vStr "")),
         ("type", (dictLookup "type" f).getD (Val.vStr "")),
         ("required", (dictLookup "required" f).getD (Val.vBool false))]
        ((dictLookup "picklist_values" f).map (fun v => ("picklist_values", v))))
      ((dictLookup "reference_to" f).map (fun v => ("reference_to", v))))
    ((dictLookup "length" f).map (fun v => ("length", v)))

/-- A picklist field as it appears in the loaded schema document. -/
def searchFieldEx5 : Dict :=
  [("api_name", Val.vStr "Status"), ("type", Val.vStr "Picklist"),
   ("picklist_values", Val.vStrs ["Open", "Closed"])]

/-- C5 counterexample: in the legacy splitter (scripts/split_schema_by_object.py,
`create_search_index`), the search-index entry of a picklist field contains
the actual picklist values, contradicting the claim that the search index
never carries them. -/
theorem search_index_legacy_counterexample :
    dictLookup "picklist_values" (searchFieldInfoLegacy searchFieldEx5)
      = some (Val.vStrs ["Open", "Closed"]) := by
  decide

/-- C5 (amended): in the salesforce/scripts splitter, each search-index
field entry carries only name, type, required, the two presence booleans,
optional reference_to and optional length — never the actual picklist values
or the formula text. -/
theorem search_index_excludes_bulk (f : Dict) :
    (∀ k ∈ keysOf (searchFieldInfo f),
        k ∈ ["name", "type", "required", "has_picklist_values", "has_formula",
             "reference_to", "length"])
  ∧ dictLookup "picklist_values" (searchFieldInfo f) = none
  ∧ dictLookup "formula" (searchFieldInfo f) = none
  ∧ (∀ v, dictLookup "has_picklist_values" (searchFieldInfo f) = some v → v = Val.vBool true)
  ∧ (∀ v, dictLookup "has_formula" (searchFieldInfo f) = some v → v = Val.vBool true) := by
  unfold searchFieldInfo
  rcases truthyEntry "picklist_values" f with _ | p <;>
    rcases truthyEntry "formula" f with _ | q <;>
    rcases dictLookup "reference_to" f with _ | r <;>
    rcases dictLookup "length" f with _ | l <;>
    simp [addEntry, dictInsert, dictLookup, keysOf] <;>
    intro v hv <;>
    simp_all

theorem search_index_excludes_bulk_witness :
    "name" ∈ ["name", "type", "required", "has_picklist_values", "has_formula",
              "reference_to", "length"]
  ∧ Val.vBool true = Val.vBool true :=
  ⟨(search_index_excludes_bulk searchFieldEx5).1 "name" (by decide),
   (search_index_excludes_bulk searchFieldEx5).2.2.2.1 (Val.vBool true) (by decide)⟩

/-! ## Claim C8: the Categorizer
(`SchemaOptimizer.create_categorized_schemas` and
`SchemaOptimizer.CATEGORIES`). -/

/-- The ordered rule table `SchemaOptimizer.CATEGORIES` (dict insertion
order). -/
def CATEGORIES : List (String × List String) :=
  [("core", ["Account", "Contact", "Lead", "User", "Group", "Profile"]),
   ("sales", ["Opportunity", "Quote", "Contract", "Order", "Product2", "PricebookEntry",
              "OpportunityLineItem", "QuoteLineItem", "OrderItem"]),
   ("service", ["Case", "Solution", "Entitlement", "ServiceContract", "WorkOrder",
                "WorkOrderLineItem", "ServiceAppointment"]),
   ("marketing", ["Campaign", "CampaignMember", "Lead"]),
   ("activities", ["Task", "Event", "EmailMessage"]),
   ("healthcare", []),
   ("custom", []),
   ("other", [])]

/-- The categorization loop body: first explicit membership list wins, then
the HealthCloudGA prefix rule, then the `__c` suffix rule, then `other`. -/
def assignCategory (name : String) : String :=
  match CATEGORIES.find? (fun c => decide (name ∈ c.2)) with
  | some c => c.1
  | none =>
    if name.startsWith "HealthCloudGA__" then "healthcare"
    else if name.endsWith "__c" then "custom"
    else "other"

/-- Modelled from the spec wording of §4.3: ordered rules, first match
wins. -/
def categorizeSpec (name : String) : String :=
  if name ∈ ["Account", "Contact", "Lead", "User", "Group", "Profile"] then "core"
  else if name ∈ ["Opportunity", "Quote", "Contract", "Order", "Product2", "PricebookEntry",
                  "OpportunityLineItem", "QuoteLineItem", "OrderItem"] then "sales"
  else if name ∈ ["Case", "Solution", "Entitlement", "ServiceContract", "WorkOrder",
                  "WorkOrderLineItem", "ServiceAppointment"] then "service"
  else if name ∈ ["Campaign", "CampaignMember", "Lead"] then "marketing"
  else if name ∈ ["Task", "Event", "EmailMessage"] then "activities"
  else if name.startsWith "HealthCloudGA__" then "healthcare"
  else if name.endsWith "__c" then "custom"
  else "other"

theorem assignCategory_eq_spec (name : String) :
    assignCategory name = categorizeSpec name := by
  unfold assignCategory categorizeSpec CATEGORIES
  by_cases h1 : name ∈ ["Account", "Contact", "Lead", "User", "Group", "Profile"] <;>
    by_cases h2 : name ∈ ["Opportunity", "Quote", "Contract", "Order", "Product2",
      "PricebookEntry", "OpportunityLineItem", "QuoteLineItem", "OrderItem"] <;>
    by_cases h3 : name ∈ ["Case", "Solution", "Entitlement", "ServiceContract", "WorkOrder",
      "WorkOrderLineItem", "ServiceAppointment"] <;>
    by_cases h4 : name ∈ ["Campaign", "CampaignMember", "Lead"] <;>
    by_cases h5 : name ∈ ["Task", "Event", "EmailMessage"] <;>
    simp [List.find?, h1, h2, h3, h4, h5]

/-- C8: every object is assigned to exactly one category, equal to the
first-match-wins evaluation the spec describes (explicit lists in the order
core, sales, service, marketing, activities; then the HealthCloudGA__
prefix; then the `__c` suffix; then `other`); the assignment is a pure
function of the name and the rule table, hence identical across re-runs. -/
theorem categorizer_first_match_single (name : String) :
    assignCategory name = categorizeSpec name
  ∧ List.count (assignCategory name) (CATEGORIES.map Prod.fst) = 1 := by
  refine ⟨assignCategory_eq_spec name, ?_⟩
  rw [assignCategory_eq_spec]
  unfold categorizeSpec
  split_ifs <;> decide

/-! ## MetadataParser / RelationshipExtractor
(`SalesforceSchemaParser` in generate_sf_er_schema.py).

A metadata XML document is embedded as a record of the texts the code reads
with `root.find`, with `""` standing for "element absent or empty text"
(the code guards every use with `elem is not None and elem.text`, so the two
cases coincide).  `referenceToFirst` is the text of the first `referenceTo`
element (`root.find` returns the first match).  `valueSetNames` holds the
texts of the `fullName` elements below the `valueSet` element, in document
order (absent `valueSet` gives the empty list).  A file whose XML fails to
parse is `FieldFile.malformed`. -/

structure FieldDoc where
  stem : String
  fullName : String
  label : String
  ftype : String
  description : String
  inlineHelpText : String
  required : String
  uniqueAttr : String
  externalId : String
  lengthAttr : String
  precision : String
  scale : String
  referenceToFirst : String
  relationshipName : String
  relationshipLabel : String
  deleteConstraint : String
  valueSetNames : List String
  formula : String
  defaultValue : String
deriving DecidableEq, Repr

inductive FieldFile where
  | malformed (stem : String)
  | parsed (d : FieldDoc)
deriving DecidableEq, Repr

/-- A `RelationshipEdge` as appended to
`schema['salesforce_schema']['relationships']`. -/
structure Edge where
  from_object : String
  from_field : String
  to_object : String
  relationship_type : String
  relationship_name : String
  delete_constraint : String
deriving DecidableEq, Repr

/-- `text.lower() == 'true'`. -/
def boolText (s : String) : Bool := s.toLower = "true"

/-- Python `int(s)`: optional surrounding whitespace, optional sign,
decimal digits. -/
def pyInt? (s : String) : Option Int :=
  let t := s.trim
  if t.startsWith "-" then
    match (t.drop 1).toNat? with
    | some n => some (-(n : Int))
    | none => none
  else if t.startsWith "+" then
    match (t.drop 1).toNat? with
    | some n => some (n : Int)
    | none => none
  else
    match t.toNat? with
    | some n => some (n : Int)
    | none => none

/-- Conditionally add one attribute (`if elem is not None and elem.text:`
followed by a dict assignment; all keys are fresh, so assignment appends). -/
def addIfText (k : String) (t : String) (mk : String → Val) (fd : Dict) : Dict :=
  if t = "" then fd else dictInsert k (mk t) fd

/-- `SalesforceSchemaParser.parse_field` on a well-formed document: the
field dict (keys in the code's assignment order) and the relationship edges
appended for it.  `relationship_name`/`delete_constraint` in the edge are
`field_data.get(..., '')`, which equals the document text in every case
because an attribute is stored exactly when its text is nonempty. -/
def parseFieldDoc (d : FieldDoc) (parentObject : String) : Dict × List Edge :=
  let fname := if d.fullName = "" then d.stem else d.fullName
  let isRel := d.ftype = "Lookup" ∨ d.ftype = "MasterDetail"
  let isPk := d.ftype = "Picklist" ∨ d.ftype = "MultiselectPicklist"
  let pkvals := d.valueSetNames.filter (fun s => s ≠ "")
  let fd : Dict := [("api_name", Val.vStr fname)]
  let fd := addIfText "label" d.label Val.vStr fd
  let fd := addIfText "type" d.ftype Val.vStr fd
  let fd := addIfText "description" d.description Val.vStr fd
  let fd := addIfText "help_text" d.inlineHelpText Val.vStr fd
  let fd := addIfText "required" d.required (fun t => Val.vBool (boolText t)) fd
  let fd := addIfText "unique" d.uniqueAttr (fun t => Val.vBool (boolText t)) fd
  let fd := addIfText "external_id" d.externalId (fun t => Val.vBool (boolText t)) fd
  let fd := if d.lengthAttr = "" then fd else
    match pyInt? d.lengthAttr with
    | some n => dictInsert "length" (Val.vInt n) fd
    | none => fd
  let fd := if d.precision = "" then fd else
    match pyInt? d.precision with
    | some n => dictInsert "precision" (Val.vInt n) fd
    | none => fd
  let fd := if d.scale = "" then fd else
    match pyInt? d.scale with
    | some n => dictInsert "scale" (Val.vInt n) fd
    | none => fd
  let fd := if isRel then addIfText "reference_to" d.referenceToFirst Val.vStr fd else fd
  let fd := if isRel then addIfText "relationship_name" d.relationshipName Val.vStr fd else fd
  let fd := if isRel then addIfText "relationship_label" d.relationshipLabel Val.vStr fd else fd
  let fd := if isRel then addIfText "delete_constraint" d.deleteConstraint Val.vStr fd else fd
  let edges : List Edge :=
    if isRel ∧ d.referenceToFirst ≠ "" then
      [{ from_object := parentObject, from_field := fname,
         to_object := d.referenceToFirst, relationship_type := d.ftype,
         relationship_name := d.relationshipName,
         delete_constraint := d.deleteConstraint }]
    else []
  let fd := if isPk ∧ pkvals ≠ [] then dictInsert "picklist_values" (Val.vStrs pkvals) fd else fd
  let fd := addIfText "formula" d.formula Val.vStr fd
  let fd := addIfText "default_value" d.defaultValue Val.vStr fd
  (fd, edges)

/-- `parse_field`: a document whose XML fails to parse yields `None`
(`except ET.ParseError: ... return None`); a well-formed one yields its
field dict and edges. -/
def parseFieldFile (fl : FieldFile) (parentObject : String) : Option (Dict × List Edge) :=
  match fl with
  | .malformed _ => none
  | .parsed d => some (parseFieldDoc d parentObject)

/-- The field loop of `parse_object`: `field_data = parse_field(...)`,
appended only `if field_data`. -/
def parseFieldsLoop (parentObject : String) (files : List FieldFile) : List Dict :=
  (files.filterMap (fun fl => parseFieldFile fl parentObject)).map Prod.fst

/-- The relationship edges collected while parsing the fields of one
object, in processing order. -/
def parseFieldsEdges (parentObject : String) (files : List FieldFile) : List Edge :=
  ((files.filterMap (fun fl => parseFieldFile fl parentObject)).map Prod.snd).flatten

/-- C9: a parsed field of type Lookup or MasterDetail whose document carries
a non-empty (first encountered) reference target emits exactly one
RelationshipEdge with the parent object, the field's api_name, the target
and the field's type; any other field type, or a reference-typed field with
no target, emits no edge. -/
theorem relationship_edge_extraction (d : FieldDoc) (parentObject : String) :
    ((d.ftype = "Lookup" ∨ d.ftype = "MasterDetail") → d.referenceToFirst ≠ "" →
      (parseFieldDoc d parentObject).2
        = [{ from_object := parentObject,
             from_field := if d.fullName = "" then d.stem else d.fullName,
             to_object := d.referenceToFirst, relationship_type := d.ftype,
             relationship_name := d.relationshipName,
             delete_constraint := d.deleteConstraint }])
  ∧ ((d.ftype ≠ "Lookup" ∧ d.ftype ≠ "MasterDetail") → (parseFieldDoc d parentObject).2 = [])
  ∧ (d.referenceToFirst = "" → (parseFieldDoc d parentObject).2 = []) := by
  refine ⟨?_, ?_, ?_⟩
  · intro hrel href
    show (if (d.ftype = "Lookup" ∨ d.ftype = "MasterDetail") ∧ d.referenceToFirst ≠ "" then
        [{ from_object := parentObject,
           from_field := if d.fullName = "" then d.stem else d.fullName,
           to_object := d.referenceToFirst, relationship_type := d.ftype,
           relationship_name := d.relationshipName,
           delete_constraint := d.deleteConstraint }]
      else ([] : List Edge)) = _
    rw [if_pos ⟨hrel, href⟩]
  · intro hne
    show (if (d.ftype = "Lookup" ∨ d.ftype = "MasterDetail") ∧ d.referenceToFirst ≠ "" then _
      else ([] : List Edge)) = []
    rw [if_neg (fun hc => hc.1.elim hne.1 hne.2)]
  · intro href
    show (if (d.ftype = "Lookup" ∨ d.ftype = "MasterDetail") ∧ d.referenceToFirst ≠ "" then _
      else ([] : List Edge)) = []
    rw [if_neg (fun hc => hc.2 href)]

/-- An all-empty field document, to be specialized per example. -/
def emptyFieldDoc : FieldDoc :=
  { stem := "", fullName := "", label := "", ftype := "", description := "",
    inlineHelpText := "", required := "", uniqueAttr := "", externalId := "",
    lengthAttr := "", precision := "", scale := "", referenceToFirst := "",
    relationshipName := "", relationshipLabel := "", deleteConstraint := "",
    valueSetNames := [], formula := "", defaultValue := "" }

/-- The spec's relationship scenario: a Lookup field on `Case` with
`referenceTo = Contact`. -/
def lookupDocEx : FieldDoc :=
  { emptyFieldDoc with
    stem := "ContactId"
    fullName := "ContactId"
    ftype := "Lookup"
    referenceToFirst := "Contact" }

theorem relationship_edge_extraction_witness :
    (parseFieldDoc lookupDocEx "Case").2
      = [{ from_object := "Case", from_field := "ContactId", to_object := "Contact",
           relationship_type := "Lookup", relationship_name := "",
           delete_constraint := "" }] :=
  (relationship_edge_extraction lookupDocEx "Case").1 (Or.inl rfl) (by decide)

/-- C3 (amended): a field document whose XML fails to parse is dropped from
the object — `parse_field` returns `None` and no placeholder is appended —
while every sibling is processed exactly as it would be without it, and the
object as a whole still parses. -/
theorem parser_malformed_dropped (parentObject stem : String)
    (pre post : List FieldFile) :
    parseFieldFile (.malformed stem) parentObject = none
  ∧ parseFieldsLoop parentObject (pre ++ FieldFile.malformed stem :: post)
      = parseFieldsLoop parentObject (pre ++ post) := by
  refine ⟨rfl, ?_⟩
  unfold parseFieldsLoop
  simp [parseFieldFile, List.filterMap_append]

/-- A minimal well-formed field document with the given name. -/
def simpleDocEx (s : String) : FieldDoc :=
  { emptyFieldDoc with
    stem := s
    fullName := s
    ftype := "Text" }

/-- Ten field documents, the seventh malformed. -/
def filesEx3 : List FieldFile :=
  [.parsed (simpleDocEx "F1"), .parsed (simpleDocEx "F2"), .parsed (simpleDocEx "F3"),
   .parsed (simpleDocEx "F4"), .parsed (simpleDocEx "F5"), .parsed (simpleDocEx "F6"),
   .malformed "F7", .parsed (simpleDocEx "F8"), .parsed (simpleDocEx "F9"),
   .parsed (simpleDocEx "G1")]

/-- C3 counterexample: with 1 malformed document among 10, the object ends
up with 9 fields and no field carries a parse-error marker — the malformed
field is not degraded to a placeholder, contrary to the claim. -/
theorem parser_malformed_counterexample :
    (parseFieldsLoop "Obj" filesEx3).length = 9
  ∧ ∀ fd ∈ parseFieldsLoop "Obj" filesEx3, dictLookup "parse_error" fd = none := by
  decide

/-! ## Claim C4: the parse-and-save pipeline
(`SalesforceSchemaParser.parse_all_objects` / `save_yaml`). -/

structure RTDoc where
  stem : String
  fullName : String
  label : String
  description : String
  active : String
deriving DecidableEq, Repr

inductive RTFile where
  | malformed (stem : String)
  | parsed (d : RTDoc)
deriving DecidableEq, Repr

/-- `parse_record_type`: `None` on a parse error, otherwise the record-type
dict in the code's assignment order. -/
def parseRTFile : RTFile → Option Dict
  | .malformed _ => none
  | .parsed d =>
    some (addIfText "active" d.active (fun t => Val.vBool (boolText t))
      (addIfText "description" d.description Val.vStr
        (addIfText "label" d.label Val.vStr
          [("api_name", Val.vStr (if d.fullName = "" then d.stem else d.fullName))])))

structure VRDoc where
  stem : String
  fullName : String
  active : String
  description : String
  errorConditionFormula : String
  errorDisplayField : String
  errorMessage : String
deriving DecidableEq, Repr

inductive VRFile where
  | malformed (stem : String)
  | parsed (d : VRDoc)
deriving DecidableEq, Repr

/-- `parse_validation_rule`: `None` on a parse error, otherwise the
validation-rule dict in the code's assignment order. -/
def parseVRFile : VRFile → Option Dict
  | .malformed _ => none
  | .parsed d =>
    some (addIfText "error_message" d.errorMessage Val.vStr
      (addIfText "error_display_field" d.errorDisplayField Val.vStr
        (addIfText "error_condition_formula" d.errorConditionFormula Val.vStr
          (addIfText "description" d.description Val.vStr
            (addIfText "active" d.active (fun t => Val.vBool (boolText t))
              [("name", Val.vStr (if d.fullName = "" then d.stem else d.fullName))])))))

/-- The object descriptor file: absent, unreadable, or parsed with a label
text and a description text (`""` for absent/empty elements). -/
inductive MetaFile where
  | missing
  | malformed
  | parsed (label : String) (description : String)
deriving DecidableEq, Repr

/-- One object subdirectory of the input tree. -/
structure ObjDir where
  name : String
  meta : MetaFile
  fieldFiles : List FieldFile
  rtFiles : List RTFile
  vrFiles : List VRFile
deriving DecidableEq, Repr

/-- The normalized object record (fixed keys of `obj_data`). -/
structure ObjData where
  api_name : String
  otype : String
  label : String
  description : Option String
  fields : List Dict
  record_types : List Dict
  validation_rules : List Dict
deriving DecidableEq, Repr

/-- The suffix rules of `parse_object` (`__mdt`, `__e`, `__c`, else
Standard). -/
def objTypeOf (name : String) : String :=
  if ¬ name.endsWith "__c" ∧ ¬ name.endsWith "__mdt" ∧ ¬ name.endsWith "__e" then "Standard"
  else if name.endsWith "__mdt" then "CustomMetadata"
  else if name.endsWith "__e" then "PlatformEvent"
  else "Custom"

def stemOfField : FieldFile → String
  | .malformed s => s
  | .parsed d => d.stem

def stemOfRT : RTFile → String
  | .malformed s => s
  | .parsed d => d.stem

def stemOfVR : VRFile → String
  | .malformed s => s
  | .parsed d => d.stem

/-- Python `sorted` over directory entries: stable sort by name.  The glob
suffix is shared by all files of one collection, so sorting by the full
filename equals sorting by the stem. -/
def sortByKey {α : Type} (key : α → String) (l : List α) : List α :=
  l.mergeSort (fun a b => key a ≤ key b)

/-- `SalesforceSchemaParser.parse_object`: one ObjectDefinition plus the
relationship edges its fields contribute. -/
def parseObject (o : ObjDir) : ObjData × List Edge :=
  ({ api_name := o.name
     otype := objTypeOf o.name
     label :=
       match o.meta with
       | .parsed l _ => if l = "" then o.name else l
       | _ => o.name
     description :=
       match o.meta with
       | .parsed _ ds => if ds = "" then none else some ds
       | _ => none
     fields := parseFieldsLoop o.name (sortByKey stemOfField o.fieldFiles)
     record_types := (sortByKey stemOfRT o.rtFiles).filterMap parseRTFile
     validation_rules := (sortByKey stemOfVR o.vrFiles).filterMap parseVRFile },
   parseFieldsEdges o.name (sortByKey stemOfField o.fieldFiles))

/-- The saved normalized document (header timestamp and the
`salesforce_schema` sections). -/
structure SchemaOut where
  generated_date : String
  source_path : String
  total_objects : Nat
  objects : List ObjData
  relationships : List Edge
deriving DecidableEq, Repr

/-- One run of the parse-and-save pipeline at time `now`: object
directories processed in sorted order, every object kept
(`parse_object` is total in this model; a per-object failure is the
exception path, which no input of this model reaches). -/
def runPipeline (sourcePath : String) (dirs : List ObjDir) (now : String) : SchemaOut :=
  { generated_date := now
    source_path := sourcePath
    total_objects := ((sortByKey ObjDir.name dirs).map parseObject).length
    objects := ((sortByKey ObjDir.name dirs).map parseObject).map Prod.fst
    relationships := (((sortByKey ObjDir.name dirs).map parseObject).map Prod.snd).flatten }

/-- Erase the embedded generation timestamp. -/
def stripGeneratedDate (s : SchemaOut) : SchemaOut := { s with generated_date := "" }

/-- A one-object input tree. -/
def treeEx4 : List ObjDir :=
  [{ name := "Account", meta := .missing, fieldFiles := [], rtFiles := [], vrFiles := [] }]

/-- C4 counterexample: two runs of the pipeline on an unchanged input tree
at different times are not byte-equivalent — the output embeds
`datetime.now()` as `generated_date` (both in the YAML header and in the
metadata section), so repeated runs differ there. -/
theorem pipeline_not_byte_equivalent :
    runPipeline "objects" treeEx4 "2024-01-01T00:00:00"
      ≠ runPipeline "objects" treeEx4 "2024-01-02T00:00:00" := by
  decide

/-- C4 (amended): apart from the embedded generation timestamp, the
pipeline output is a pure function of the input tree — two runs on
unchanged input at any two times agree on every other byte, with sorted
file/directory names the sole order source. -/
theorem pipeline_deterministic_modulo_timestamp (sourcePath : String)
    (dirs : List ObjDir) (t1 t2 : String) :
    stripGeneratedDate (runPipeline sourcePath dirs t1)
      = stripGeneratedDate (runPipeline sourcePath dirs t2) := rfl

end SfSchema
